import Mathlib

/-!
Shallow embedding of the delay-line / synapse / smoothing core of the
`inferno` spiking-neural-network library, and proofs about it.

Conventions of the embedding:

These tensors are elementwise maps over a flattened unit group, so a tensor of
shape `(batch, *dims)` is embedded as a `List` over the flattened units, and a
time-indexed history as a `List` of such rows (newest observation first).
Real scalars are embedded as exact rationals `ℚ`; `NaN` (used by `isi` as a
padding value) is embedded by the explicit sum type `PyF`.  Python exceptions
are embedded by the `PyError` sum type: the spec's error taxonomy names every
construction-time validation failure `ConfigurationError` (the concrete Python
classes at those raise sites are `ValueError` / `RuntimeError` and the classes
raised by the out-of-`src` `argtest` helpers); `TypeError` is the CPython
call-protocol error (e.g. passing a keyword-only parameter positionally).
-/

/-- Python exception outcomes relevant to the embedded code: the spec's
taxonomy class `ConfigurationError` for construction-time validation failures,
`ShapeMismatchError` for runtime shape mismatches, and the CPython
`TypeError` raised by the call protocol itself. -/
inductive PyError where
  | configurationError
  | shapeMismatchError
  | typeError
  deriving DecidableEq, Repr

/-- Decidable equality for `Except` outcomes, used to evaluate the embedded
functions on concrete inputs. -/
instance {ε α : Type} [DecidableEq ε] [DecidableEq α] :
    DecidableEq (Except ε α) := fun a b =>
  match a, b with
  | .ok x, .ok y =>
    if h : x = y then .isTrue (by rw [h]) else .isFalse (by simp [h])
  | .error e, .error f =>
    if h : e = f then .isTrue (by rw [h]) else .isFalse (by simp [h])
  | .ok _, .error _ => .isFalse (by simp)
  | .error _, .ok _ => .isFalse (by simp)

/-- Lowercases one ASCII character, embedding `str.lower` for the ASCII
arguments the library passes (interpolation-mode names). -/
def charLower (c : Char) : Char :=
  if 'A' ≤ c ∧ c ≤ 'Z' then Char.ofNat (c.toNat + 32) else c

/-- Embeds Python's `str.lower()` for ASCII strings. -/
def strLower (s : String) : String :=
  String.mk (s.data.map charLower)

/-- Floor of a rational, computed on the reduced fraction. -/
def qfloor (q : ℚ) : ℤ :=
  q.num.fdiv q.den

/-- Ceiling of a rational, computed on the reduced fraction. -/
def qceil (q : ℚ) : ℤ :=
  -((-q.num).fdiv q.den)

/-! ## `inferno/core/math.py` -/

/-- Source `exponential_smoothing` (math.py): simple exponential smoothing for
one step; `level = None` is the initialization sentinel and returns the
observation unchanged. -/
def exponential_smoothing (obs : ℚ) (level : Option ℚ) (alpha : ℚ) : ℚ :=
  match level with
  | none => obs
  | some l => alpha * obs + (1 - alpha) * l

/-- Call wrapper embedding the CPython call protocol for
`exponential_smoothing(obs, level, *, alpha)`: `obs` and `level` are its only
positional parameters and `alpha` is keyword-only, so any call with three
positional arguments (or without the `alpha` keyword) raises `TypeError`
before the body runs. -/
def exponential_smoothing_poscall (pos : List ℚ) (alphaKw : Option ℚ) :
    Except PyError ℚ :=
  match pos, alphaKw with
  | [obs, level], some a => .ok (exponential_smoothing obs (some level) a)
  | _, _ => .error .typeError

/-- Source `holt_linear_smoothing` (math.py): `level = None` returns
`(obs, None)`; a missing trend is initialized as `obs - level`; the update
step calls `exponential_smoothing(obs, level + trend, alpha)` and
`exponential_smoothing(s - level, trend, beta)` — passing `alpha`/`beta` as a
third positional argument, embedded through the call wrapper. -/
def holt_linear_smoothing (obs : ℚ) (level trend : Option ℚ)
    (alpha beta : ℚ) : Except PyError (ℚ × Option ℚ) :=
  match level with
  | none => .ok (obs, none)
  | some lvl =>
    let t : ℚ := match trend with | none => obs - lvl | some b => b
    match exponential_smoothing_poscall [obs, lvl + t, alpha] none with
    | .error e => .error e
    | .ok s =>
      match exponential_smoothing_poscall [s - lvl, t, beta] none with
      | .error e => .error e
      | .ok b => .ok (s, some b)

/-- Holt update as the docstring of `holt_linear_smoothing` (and the spec)
state it: `s' = α·obs + (1-α)·(level+trend)` and
`b' = β·(s'-level) + (1-β)·trend`.  Stated from the spec's words for
comparison with the source embedding above. -/
def holt_linear_smoothing_textbook (obs level trend alpha beta : ℚ) : ℚ × ℚ :=
  let s := alpha * obs + (1 - alpha) * (level + trend)
  (s, beta * (s - level) + (1 - beta) * trend)

/-- Rational-or-NaN scalar, embedding the float values flowing through `isi`
(`NaN` is used there as explicit padding). -/
inductive PyF where
  | nan
  | val (q : ℚ)
  deriving DecidableEq, Repr

/-- Subtraction on `PyF`: any operation touching `NaN` yields `NaN`. -/
def PyF.sub : PyF → PyF → PyF
  | PyF.val a, PyF.val b => PyF.val (a - b)
  | _, _ => PyF.nan

/-- Positions (in increasing order) of `true` entries of a boolean row:
the last coordinate of `torch.nonzero` restricted to one row. -/
def boolIdx : List Bool → List ℕ
  | [] => []
  | b :: t =>
    let rest := (boolIdx t).map (· + 1)
    if b then 0 :: rest else rest

/-- Number of spikes in one train (number of `True` entries). -/
def spikeCount (t : List Bool) : ℕ :=
  (t.filter (fun b => b)).length

/-- Embeds `torch.tensor_split(x, indices)` along the last dimension for an
increasing index list: slices `x[0:i1], x[i1:i2], ..., x[ik:]`. -/
def tensorSplit : List α → List ℕ → List (List α)
  | l, [] => [l]
  | l, s :: rest => l.take s :: tensorSplit (l.drop s) (rest.map (· - s))
  termination_by _ splits => splits.length
  decreasing_by simp

/-- Differences of consecutive entries, `torch.diff` along the last dimension
(an empty or singleton row yields an empty row). -/
def pyDiff (l : List PyF) : List PyF :=
  List.zipWith PyF.sub (l.drop 1) l

/-- Source `isi` (math.py), for the time-last layout, over the flattened
non-time dimensions (each element of `trains` is one spike train):
pad every train with a leading `True`, take `torch.nonzero` positions along
time, split that flat position list at the pads, scale by `step_time`
(1.0 when `None`), stack with trailing-`NaN` padding, drop the leading pad
column, and take consecutive differences. -/
def isi (trains : List (List Bool)) (step_time : Option ℚ) :
    List (List PyF) :=
  let st : ℚ := step_time.getD 1
  let padded := trains.map (fun t => true :: t)
  let nz : List ℕ := (padded.map boolIdx).flatten
  let splits : List ℕ := (boolIdx (nz.map (· == 0))).drop 1
  let vals : List PyF := nz.map (fun (p : ℕ) => PyF.val (((p : ℚ) - 1) * st))
  let chunks := tensorSplit vals splits
  let maxlen := (chunks.map List.length).foldr max 0
  let rows := chunks.map
    (fun c => (c ++ List.replicate (maxlen - c.length) PyF.nan).drop 1)
  rows.map pyDiff

/-! ## Synapses: `inferno/neural/synapses/current.py`

The mixin and base classes (`InfernoSynapse`, `SpikeCurrentMixin`,
`SpikeDerivedCurrentMixin`, the record tensors behind `spike_` / `current_`,
and `interp_nearest` / `interp_previous`) are not under `src/`; those parts
are modelled from the spec (§3, §4.1–§4.3) as a fixed-capacity delay line of
capacity `⌈delay/dt⌉ + 1` holding one observation row per past step, newest
first.  Everything taken verbatim from `current.py` is noted per definition. -/

/-- Interpolation policy selected by the `match interp_mode.lower()` in the
source constructors. -/
inductive InterpMode where
  | nearest
  | previous
  deriving DecidableEq, Repr

/-- Dispatch of the `match interp_mode.lower()` block shared by the
`DeltaCurrent` and `DeltaPlusCurrent` constructors: `"nearest"` and
`"previous"` select their policies, anything else falls through to the
raising case. -/
def parseInterpMode (interp_mode : String) : Option InterpMode :=
  if strLower interp_mode = "nearest" then some InterpMode.nearest
  else if strLower interp_mode = "previous" then some InterpMode.previous
  else none

/-- Modelled from the spec (§4.1): `previous` interpolation ignores the newer
bracketing observation and holds the older one (last value held). -/
def interp_previous (vOlder _vNewer : ℚ) : ℚ := vOlder

/-- Modelled from the spec (§4.1): `nearest` interpolation snaps to the closer
bracketing observation when within tolerance of either, and otherwise
interpolates linearly in age. -/
def interp_nearest (vOlder vNewer ageOlder ageNewer r tol : ℚ) : ℚ :=
  if r - ageNewer ≤ tol ∨ ageOlder - r ≤ tol then
    (if r - ageNewer ≤ ageOlder - r then vNewer else vOlder)
  else
    vNewer + (vOlder - vNewer) * ((r - ageNewer) / (ageOlder - ageNewer))

/-- State of a `DeltaCurrent` synapse: the construction-time configuration
plus the spike history (newest row first; one `Bool` per unit of the
flattened `(batch, *shape)` group).  `cap` is the delay-line capacity fixed
at construction. -/
structure DeltaCurrent where
  shape_size : ℕ
  batch_size : ℕ
  dt : ℚ
  delayMax : ℚ
  spike_q : ℚ
  mode : InterpMode
  tol : ℚ
  currentOverbound : Option ℚ
  spikeOverbound : Option Bool
  cap : ℕ
  hist : List (List Bool)
  deriving DecidableEq, Repr

/-- Number of units in the flattened batched group. -/
def DeltaCurrent.n (s : DeltaCurrent) : ℕ := s.batch_size * s.shape_size

/-- Source `DeltaCurrent.__init__`:
validation of `step_time`/`delay`/`batch_size` is the `InfernoSynapse`
constructor (not under `src/`; modelled from the spec: `step_time > 0`,
`max_delay ≥ 0`, `batch_size ≥ 1`, violations raise `ConfigurationError`);
`argtest.neq("spike_q", spike_q, 0, float)` (not under `src/`; modelled from
the spec: zero charge raises `ConfigurationError`); then the source's
`match interp_mode.lower()` with unknown modes raising, and the spike
history initialized to all-`False` (`torch.zeros(..., dtype=torch.bool)`). -/
def DeltaCurrent.make (shape : ℕ) (step_time spike_q delay : ℚ)
    (interp_mode : String) (interp_tol : ℚ) (current_overbound : Option ℚ)
    (spike_overbound : Option Bool) (batch_size : ℕ) :
    Except PyError DeltaCurrent :=
  if step_time ≤ 0 then .error .configurationError
  else if delay < 0 then .error .configurationError
  else if batch_size < 1 then .error .configurationError
  else if spike_q = 0 then .error .configurationError
  else
    match parseInterpMode interp_mode with
    | none => .error .configurationError
    | some m =>
      let cap := (qceil (delay / step_time)).toNat + 1
      let n := batch_size * shape
      .ok {
        shape_size := shape
        batch_size := batch_size
        dt := step_time
        delayMax := delay
        spike_q := spike_q
        mode := m
        tol := interp_tol
        currentOverbound := current_overbound
        spikeOverbound := spike_overbound
        cap := cap
        hist := List.replicate cap (List.replicate n false)
      }

/-- Source `DeltaCurrent._to_current`: `spikes * (self.spike_q / self.dt)`,
with the boolean spikes coerced to `{0, 1}`. -/
def DeltaCurrent.toCurrentRow (s : DeltaCurrent) (spikes : List Bool) :
    List ℚ :=
  spikes.map (fun b => (bif b then (1 : ℚ) else 0) * (s.spike_q / s.dt))

/-- Source `DeltaCurrent.forward`: records the input spikes as the newest
observation (the delay-line write is modelled from the spec §4.2: newest
first, oldest slot dropped at capacity) and returns the instantaneous
current derived from them via `_to_current`. -/
def DeltaCurrent.step (s : DeltaCurrent) (spikes : List Bool) :
    DeltaCurrent × List ℚ :=
  ({ s with hist := (spikes :: s.hist).take s.cap }, s.toCurrentRow spikes)

/-- Source `DeltaCurrent.clear`: `self.spike_.reset(False)`; `reset` is not
under `src/` and is modelled from the spec (§4.2): every stored slot of the
history is set back to the resting value, nothing else changes. -/
def DeltaCurrent.clear (s : DeltaCurrent) : DeltaCurrent :=
  { s with hist := s.hist.map (fun row => row.map (fun _ => false)) }

/-- Modelled from the spec (§4.1–§4.3, `SpikeDerivedCurrentMixin` is not
under `src/`): `current_at(d)` converts the delay to the fractional slot
offset `d/dt`, and out of recorded bounds applies `current_overbound`
(clamping to the oldest observation when it is `None`); otherwise it reads
the bracketing slots and resolves them per the configured mode, with values
derived from the spike history through `_to_current`. -/
def DeltaCurrent.current_at (s : DeltaCurrent) (d : ℚ) : List ℚ :=
  let K := s.hist.length
  let r := d / s.dt
  if r > (K : ℚ) - 1 then
    match s.currentOverbound with
    | some c => List.replicate s.n c
    | none => s.toCurrentRow (s.hist.getD (K - 1) (List.replicate s.n false))
  else
    let iN : ℕ := (qfloor r).toNat
    let iO : ℕ := (qceil r).toNat
    let rowN := s.toCurrentRow (s.hist.getD iN (List.replicate s.n false))
    let rowO := s.toCurrentRow (s.hist.getD iO (List.replicate s.n false))
    match s.mode with
    | .previous => List.zipWith interp_previous rowO rowN
    | .nearest =>
      List.zipWith
        (fun vO vN => interp_nearest vO vN (iO : ℚ) (iN : ℚ) r s.tol)
        rowO rowN

/-- State of a `DeltaPlusCurrent` synapse: configuration plus both the spike
history and the current history (newest rows first). -/
structure DeltaPlusCurrent where
  shape_size : ℕ
  batch_size : ℕ
  dt : ℚ
  delayMax : ℚ
  spike_q : ℚ
  mode : InterpMode
  tol : ℚ
  currentOverbound : Option ℚ
  spikeOverbound : Option Bool
  cap : ℕ
  spikeHist : List (List Bool)
  currentHist : List (List ℚ)
  deriving DecidableEq, Repr

/-- Number of units in the flattened batched group. -/
def DeltaPlusCurrent.n (s : DeltaPlusCurrent) : ℕ :=
  s.batch_size * s.shape_size

/-- Source `DeltaPlusCurrent.__init__`: identical validation and mode
dispatch to `DeltaCurrent.__init__` (same modelling notes), initializing a
zero current history alongside the all-`False` spike history. -/
def DeltaPlusCurrent.make (shape : ℕ) (step_time spike_q delay : ℚ)
    (interp_mode : String) (interp_tol : ℚ) (current_overbound : Option ℚ)
    (spike_overbound : Option Bool) (batch_size : ℕ) :
    Except PyError DeltaPlusCurrent :=
  if step_time ≤ 0 then .error .configurationError
  else if delay < 0 then .error .configurationError
  else if batch_size < 1 then .error .configurationError
  else if spike_q = 0 then .error .configurationError
  else
    match parseInterpMode interp_mode with
    | none => .error .configurationError
    | some m =>
      let cap := (qceil (delay / step_time)).toNat + 1
      let n := batch_size * shape
      .ok {
        shape_size := shape
        batch_size := batch_size
        dt := step_time
        delayMax := delay
        spike_q := spike_q
        mode := m
        tol := interp_tol
        currentOverbound := current_overbound
        spikeOverbound := spike_overbound
        cap := cap
        spikeHist := List.replicate cap (List.replicate n false)
        currentHist := List.replicate cap (List.replicate n 0)
      }

/-- Source `DeltaPlusCurrent.forward`, line `inputs[0] * (spike_q / dt)`. -/
def DeltaPlusCurrent.toCurrentRow (s : DeltaPlusCurrent)
    (spikes : List Bool) : List ℚ :=
  spikes.map (fun b => (bif b then (1 : ℚ) else 0) * (s.spike_q / s.dt))

/-- Source `DeltaPlusCurrent.forward`: records `inputs[0].bool()` as the
newest spike observation, computes
`sum((inputs[0] * (spike_q / dt), *inputs[1:]))` — the delta response plus
every injected current tensor — records it as the newest current
observation, and returns it (history writes modelled from the spec §4.2). -/
def DeltaPlusCurrent.step (s : DeltaPlusCurrent) (spikes : List Bool)
    (injected : List (List ℚ)) : DeltaPlusCurrent × List ℚ :=
  let cur := injected.foldl (fun acc inj => List.zipWith (· + ·) acc inj)
    (s.toCurrentRow spikes)
  ({ s with
      spikeHist := (spikes :: s.spikeHist).take s.cap
      currentHist := (cur :: s.currentHist).take s.cap },
    cur)

/-- Source `DeltaPlusCurrent.clear`: `self.spike_.reset(False)` and
`self.current_.reset(0.0)`; `reset` modelled from the spec (§4.2) as setting
every stored slot to the given resting value. -/
def DeltaPlusCurrent.clear (s : DeltaPlusCurrent) : DeltaPlusCurrent :=
  { s with
      spikeHist := s.spikeHist.map (fun row => row.map (fun _ => false))
      currentHist := s.currentHist.map (fun row => row.map (fun _ => (0 : ℚ))) }

/-! ## Connections: `inferno/neural/connections/linear.py`

Only the construction path matters to the claims: the validation of
`step_time` and `delay`, and the positional argument tuple handed to the
`SynapseConstructor`.  The constructor signature is the one bound by
`DeltaCurrent.partialconstructor` in `current.py`:
`(shape, step_time, delay, batch_size)`. -/

/-- Positional argument tuple received by a `SynapseConstructor`, under the
signature `(shape, step_time, delay, batch_size)` that
`DeltaCurrent.partialconstructor` / `DeltaPlusCurrent.partialconstructor`
bind in `current.py`.  The third and fourth slots are dynamically typed in
Python, so both are embedded as `Option ℚ` (with `none` for `None`). -/
structure SynCtorArgs where
  shape : ℕ
  step_time : ℚ
  delay : Option ℚ
  batch_size : Option ℚ
  deriving DecidableEq, Repr

/-- Source `DenseLinear.__init__` (construction path): raises `ValueError`
(the spec taxonomy's `ConfigurationError`) when `float(step_time) <= 0` or
when `delay is not None and float(delay) <= 0`; otherwise calls
`synapse(input_size, float(step_time), int(batch_size),
None if not delay else float(delay))` — whose positional tuple under the
constructor signature above is returned. -/
def DenseLinear.synapseArgs (input_size : ℕ) (step_time : ℚ)
    (batch_size : ℕ) (delay : Option ℚ) : Except PyError SynCtorArgs :=
  if step_time ≤ 0 then .error .configurationError
  else
    match delay with
    | some d =>
      if d ≤ 0 then .error .configurationError
      else .ok {
        shape := input_size
        step_time := step_time
        delay := some (batch_size : ℚ)
        batch_size := some d
      }
    | none =>
      .ok {
        shape := input_size
        step_time := step_time
        delay := some (batch_size : ℚ)
        batch_size := none
      }

/-- Source `DirectLinear.__init__` (construction path): the same validation
and the same positional call
`synapse(size, float(step_time), int(batch_size),
None if not delay else float(delay))` as `DenseLinear`. -/
def DirectLinear.synapseArgs (size : ℕ) (step_time : ℚ)
    (batch_size : ℕ) (delay : Option ℚ) : Except PyError SynCtorArgs :=
  if step_time ≤ 0 then .error .configurationError
  else
    match delay with
    | some d =>
      if d ≤ 0 then .error .configurationError
      else .ok {
        shape := size
        step_time := step_time
        delay := some (batch_size : ℚ)
        batch_size := some d
      }
    | none =>
      .ok {
        shape := size
        step_time := step_time
        delay := some (batch_size : ℚ)
        batch_size := none
      }

/-! ## Shared evaluation lemmas -/

/-- Evaluation of `Except.isOk` on a success. -/
theorem except_isOk_ok {ε α : Type} (a : α) :
    (Except.ok a : Except ε α).isOk = true := rfl

/-- Evaluation of `Except.isOk` on an error. -/
theorem except_isOk_error {ε α : Type} (e : ε) :
    (Except.error e : Except ε α).isOk = false := rfl

/-- Evaluation: `"previous"` parses to the previous-value policy. -/
theorem parseInterpMode_previous_eq :
    parseInterpMode "previous" = some InterpMode.previous := by decide

/-- Evaluation: `"nearest"` parses to the nearest policy. -/
theorem parseInterpMode_nearest_eq :
    parseInterpMode "nearest" = some InterpMode.nearest := by decide

/-! ## Claims -/

/-- C2 (code_bug): whenever `level` is given, `holt_linear_smoothing` reaches
`exponential_smoothing(obs, level + trend, alpha)` with three positional
arguments and raises `TypeError` — both with a given trend and with the
trend-initialization path — while the `level = None` sentinel path returns
`(obs, None)` as the claim states. -/
theorem holt_linear_smoothing_typeError :
    holt_linear_smoothing 1 (some (1/2)) (some (1/5)) (1/2) (1/2)
      = .error .typeError
    ∧ holt_linear_smoothing 1 (some (1/2)) none (1/2) (1/2)
      = .error .typeError
    ∧ holt_linear_smoothing 1 none none (1/2) (1/2) = .ok (1, none) :=
  ⟨rfl, rfl, rfl⟩

/-- C3 (code_bug): `DenseLinear.__init__` with step time 1, batch size 3 and
delay 2 hands the `SynapseConstructor` the positional tuple whose `delay`
slot holds the batch size 3 and whose `batch_size` slot holds the delay 2 —
swapped relative to the `(shape, step_time, delay, batch_size)` signature
bound in `current.py`. -/
theorem denseLinear_constructor_args_swapped :
    DenseLinear.synapseArgs 2 1 3 (some 2)
      = .ok { shape := 2, step_time := 1, delay := some 3,
              batch_size := some 2 } := by
  decide

/-- C6 (counterexample): an explicit zero maximum delay is rejected at
connection construction, contradicting the claim that any non-negative
maximum delay (including zero) is accepted. -/
theorem connection_zero_delay_rejected :
    DenseLinear.synapseArgs 1 1 1 (some 0) = .error .configurationError := by
  decide

/-- C6 (amended): `DenseLinear` and `DirectLinear` construction succeeds
exactly when the step time is positive and the maximum delay, when one is
passed, is (strictly) positive; every rejection is the construction-time
`ConfigurationError` (raised as `ValueError`). -/
theorem connection_construction_validation (n B : ℕ) (st : ℚ)
    (d : Option ℚ) :
    ((DenseLinear.synapseArgs n st B d).isOk = true
      ↔ (0 < st ∧ ∀ x ∈ d, 0 < x))
    ∧ ((DenseLinear.synapseArgs n st B d).isOk = true
        ∨ DenseLinear.synapseArgs n st B d = .error .configurationError)
    ∧ ((DirectLinear.synapseArgs n st B d).isOk = true
        ↔ (0 < st ∧ ∀ x ∈ d, 0 < x))
    ∧ ((DirectLinear.synapseArgs n st B d).isOk = true
        ∨ DirectLinear.synapseArgs n st B d = .error .configurationError) := by
  cases d with
  | none =>
    rcases le_or_lt st 0 with h | h
    · simp [DenseLinear.synapseArgs, DirectLinear.synapseArgs, h,
        not_lt.mpr h, except_isOk_error]
    · simp [DenseLinear.synapseArgs, DirectLinear.synapseArgs,
        not_le.mpr h, h, except_isOk_ok]
  | some x =>
    rcases le_or_lt st 0 with h | h
    · simp [DenseLinear.synapseArgs, DirectLinear.synapseArgs, h,
        not_lt.mpr h, except_isOk_error]
    · rcases le_or_lt x 0 with h' | h'
      · simp [DenseLinear.synapseArgs, DirectLinear.synapseArgs,
          not_le.mpr h, h, h', not_lt.mpr h', except_isOk_error]
      · simp [DenseLinear.synapseArgs, DirectLinear.synapseArgs,
          not_le.mpr h, h, not_le.mpr h', h', except_isOk_ok]

/-- C7: constructing `DeltaCurrent` or `DeltaPlusCurrent` with `spike_q = 0`
fails with the construction-time `ConfigurationError`, and with otherwise
valid parameters any non-zero `spike_q` is accepted. -/
theorem spike_q_nonzero_validation :
    (DeltaCurrent.make 1 1 0 0 "previous" 0 (some 0) (some false) 1
      = .error .configurationError)
    ∧ (DeltaPlusCurrent.make 1 1 0 0 "previous" 0 (some 0) (some false) 1
      = .error .configurationError)
    ∧ ∀ q : ℚ,
      ((DeltaCurrent.make 1 1 q 0 "previous" 0 (some 0) (some false) 1).isOk
          = true ↔ q ≠ 0)
      ∧ ((DeltaPlusCurrent.make 1 1 q 0 "previous" 0 (some 0)
            (some false) 1).isOk = true ↔ q ≠ 0) := by
  refine ⟨by decide, by decide, fun q => ?_⟩
  constructor <;>
  · by_cases hq : q = 0
    · norm_num [DeltaCurrent.make, DeltaPlusCurrent.make, hq,
        except_isOk_error]
    · norm_num [DeltaCurrent.make, DeltaPlusCurrent.make, hq,
        except_isOk_ok, parseInterpMode_previous_eq]

/-- C5: constructing `DeltaCurrent` or `DeltaPlusCurrent` with an
interpolation mode whose lowercasing is neither `"nearest"` nor
`"previous"` fails at construction with the construction-time
`ConfigurationError`. -/
theorem invalid_interp_mode_rejected (mode : String)
    (h1 : strLower mode ≠ "nearest") (h2 : strLower mode ≠ "previous") :
    DeltaCurrent.make 1 1 1 0 mode 0 (some 0) (some false) 1
      = .error .configurationError
    ∧ DeltaPlusCurrent.make 1 1 1 0 mode 0 (some 0) (some false) 1
      = .error .configurationError := by
  have hp : parseInterpMode mode = none := by
    simp [parseInterpMode, h1, h2]
  constructor <;>
    norm_num [DeltaCurrent.make, DeltaPlusCurrent.make, hp]

/-- C5 witness: the mode `"linear"` (which the spec's knob list allows but
these synapses do not implement) satisfies the hypotheses and is rejected. -/
theorem invalid_interp_mode_rejected_witness :
    strLower "linear" ≠ "nearest" ∧ strLower "linear" ≠ "previous"
    ∧ DeltaCurrent.make 1 1 1 0 "linear" 0 (some 0) (some false) 1
        = .error .configurationError
    ∧ DeltaPlusCurrent.make 1 1 1 0 "linear" 0 (some 0) (some false) 1
        = .error .configurationError :=
  ⟨by decide, by decide,
    (invalid_interp_mode_rejected "linear" (by decide) (by decide)).1,
    (invalid_interp_mode_rejected "linear" (by decide) (by decide)).2⟩

/-- C1: every `DeltaCurrent` step returns `spike * (spike_q / dt)` per unit,
and in the `dt = 1`, `spike_q = 1`, `previous`-mode scenario a single spike
at step 0 gives `current_at 0 = 1.0` and `current_at 1 = 0.0` (the latter
through the out-of-bounds `current_overbound = 0.0` policy, the history
depth being `⌈0/1⌉ + 1 = 1` slots). -/
theorem deltaCurrent_delta_scenario :
    (∀ (s : DeltaCurrent) (spikes : List Bool),
      (DeltaCurrent.step s spikes).2
        = spikes.map
            (fun b => (bif b then (1 : ℚ) else 0) * (s.spike_q / s.dt)))
    ∧ ∃ s0 s1 : DeltaCurrent,
        DeltaCurrent.make 1 1 1 0 "previous" 0 (some 0) (some false) 1
          = .ok s0
        ∧ DeltaCurrent.step s0 [true] = (s1, [1])
        ∧ s1.current_at 0 = [1]
        ∧ s1.current_at 1 = [0] := by
  constructor
  · intro s spikes
    rfl
  · refine ⟨⟨1, 1, 1, 0, 1, .previous, 0, some 0, some false, 1, [[false]]⟩,
      ⟨1, 1, 1, 0, 1, .previous, 0, some 0, some false, 1, [[true]]⟩,
      ?_, ?_, ?_, ?_⟩
    · norm_num [DeltaCurrent.make, parseInterpMode_previous_eq, qceil,
        Rat.num_zero, Rat.den_zero, Int.zero_fdiv, List.replicate_succ]
    · norm_num [DeltaCurrent.step, DeltaCurrent.toCurrentRow]
    · norm_num [DeltaCurrent.current_at, DeltaCurrent.toCurrentRow,
        DeltaCurrent.n, qfloor, qceil, interp_previous, Rat.num_zero,
        Rat.den_zero, Int.zero_fdiv]
    · norm_num [DeltaCurrent.current_at, DeltaCurrent.n,
        List.replicate_succ]

/-- C8: `clear()` on a `DeltaCurrent` or `DeltaPlusCurrent` leaves
`spike_q`, the configured maximum delay and the delay-line capacity exactly
as they were, while every slot of the spike history becomes `False` (and of
the current history, `0.0`). -/
theorem clear_preserves_learned_params :
    ∀ (s : DeltaCurrent) (p : DeltaPlusCurrent),
      (s.clear.spike_q = s.spike_q ∧ s.clear.delayMax = s.delayMax
        ∧ s.clear.cap = s.cap
        ∧ s.clear.hist.all (fun row => row.all (fun b => !b)) = true)
      ∧ (p.clear.spike_q = p.spike_q ∧ p.clear.delayMax = p.delayMax
        ∧ p.clear.cap = p.cap
        ∧ p.clear.spikeHist.all (fun row => row.all (fun b => !b)) = true
        ∧ p.clear.currentHist.all
            (fun row => row.all (fun q => q == 0)) = true) := by
  intro s p
  refine ⟨⟨rfl, rfl, rfl, ?_⟩, rfl, rfl, rfl, ?_, ?_⟩ <;>
    simp [DeltaCurrent.clear, DeltaPlusCurrent.clear, List.all_map,
      Function.comp_def, List.all_eq_true]

/-- C9: after `clear()`, one step with an all-`False` spike input (and, for
`DeltaPlusCurrent`, no injected current) returns an all-zero current row and
leaves the synapse in the exact resting state — an all-`False` spike history
(and all-zero current history) of full capacity. -/
theorem clear_then_zero_step_resting :
    (∀ s : DeltaCurrent, s.hist.length = s.cap →
      (∀ row ∈ s.hist, row.length = s.n) →
      DeltaCurrent.step s.clear (List.replicate s.n false)
        = ({ s with hist :=
              List.replicate s.cap (List.replicate s.n false) },
           List.replicate s.n 0))
    ∧ (∀ p : DeltaPlusCurrent, p.spikeHist.length = p.cap →
      p.currentHist.length = p.cap →
      (∀ row ∈ p.spikeHist, row.length = p.n) →
      (∀ row ∈ p.currentHist, row.length = p.n) →
      DeltaPlusCurrent.step p.clear (List.replicate p.n false) []
        = ({ p with
              spikeHist :=
                List.replicate p.cap (List.replicate p.n false)
              currentHist :=
                List.replicate p.cap (List.replicate p.n (0 : ℚ)) },
           List.replicate p.n 0)) := by
  constructor
  · intro s hlen hrow
    have hclear : s.clear.hist
        = List.replicate s.cap (List.replicate s.n false) := by
      rw [List.eq_replicate_iff]
      refine ⟨by simpa [DeltaCurrent.clear] using hlen, ?_⟩
      intro b hb
      simp only [DeltaCurrent.clear, List.mem_map] at hb
      obtain ⟨row, hrowmem, rfl⟩ := hb
      rw [List.map_const', hrow row hrowmem]
    have hout : DeltaCurrent.toCurrentRow s.clear
        (List.replicate s.n false) = List.replicate s.n 0 := by
      simp [DeltaCurrent.toCurrentRow, List.map_replicate]
    simp only [DeltaCurrent.step, hout, hclear]
    refine Prod.ext ?_ rfl
    simp only [DeltaCurrent.clear]
    congr 1
    rw [← List.replicate_succ, List.take_replicate]
    simp
  · intro p hs hc hrows hrowc
    have hclears : p.clear.spikeHist
        = List.replicate p.cap (List.replicate p.n false) := by
      rw [List.eq_replicate_iff]
      refine ⟨by simpa [DeltaPlusCurrent.clear] using hs, ?_⟩
      intro b hb
      simp only [DeltaPlusCurrent.clear, List.mem_map] at hb
      obtain ⟨row, hrowmem, rfl⟩ := hb
      rw [List.map_const', hrows row hrowmem]
    have hclearc : p.clear.currentHist
        = List.replicate p.cap (List.replicate p.n (0 : ℚ)) := by
      rw [List.eq_replicate_iff]
      refine ⟨by simpa [DeltaPlusCurrent.clear] using hc, ?_⟩
      intro b hb
      simp only [DeltaPlusCurrent.clear, List.mem_map] at hb
      obtain ⟨row, hrowmem, rfl⟩ := hb
      rw [List.map_const', hrowc row hrowmem]
    have hout : DeltaPlusCurrent.toCurrentRow p.clear
        (List.replicate p.n false) = List.replicate p.n 0 := by
      simp [DeltaPlusCurrent.toCurrentRow, List.map_replicate]
    simp only [DeltaPlusCurrent.step, List.foldl_nil, hout, hclears, hclearc]
    refine Prod.ext ?_ rfl
    simp only [DeltaPlusCurrent.clear]
    congr 1 <;>
    · rw [← List.replicate_succ, List.take_replicate]
      simp

/-- C9 witness: a one-unit `DeltaCurrent` with one `True` slot recorded and a
one-unit `DeltaPlusCurrent` with a spike and a current recorded both return
to the exact resting state after `clear()` plus one zero-input step. -/
theorem clear_then_zero_step_resting_witness :
    ((⟨1, 1, 1, 0, 1, .previous, 0, some 0, some false, 1,
        [[true]]⟩ : DeltaCurrent).hist.length = 1
    ∧ (∀ row ∈ (⟨1, 1, 1, 0, 1, .previous, 0, some 0, some false, 1,
        [[true]]⟩ : DeltaCurrent).hist, row.length = 1)
    ∧ DeltaCurrent.step
        (⟨1, 1, 1, 0, 1, .previous, 0, some 0, some false, 1,
          [[true]]⟩ : DeltaCurrent).clear (List.replicate 1 false)
      = (⟨1, 1, 1, 0, 1, .previous, 0, some 0, some false, 1,
          [[false]]⟩, List.replicate 1 0))
    ∧ DeltaPlusCurrent.step
        (⟨1, 1, 1, 0, 1, .previous, 0, some 0, some false, 1,
          [[true]], [[5]]⟩ : DeltaPlusCurrent).clear
        (List.replicate 1 false) []
      = (⟨1, 1, 1, 0, 1, .previous, 0, some 0, some false, 1,
          [[false]], [[0]]⟩, List.replicate 1 0) :=
  ⟨⟨rfl, by decide,
    clear_then_zero_step_resting.1
      ⟨1, 1, 1, 0, 1, .previous, 0, some 0, some false, 1, [[true]]⟩
      rfl (by decide)⟩,
    clear_then_zero_step_resting.2
      ⟨1, 1, 1, 0, 1, .previous, 0, some 0, some false, 1, [[true]], [[5]]⟩
      rfl rfl (by decide) (by decide)⟩

/-- C4: a spike train with spikes exactly at steps {2,5,9} yields intervals
{3,4} in step units when `step_time` is `None` and {3·st, 4·st} for a given
`step_time = st`; in a batch, the train with only one spike has both of its
trailing interval positions padded with `NaN`. -/
theorem isi_intervals_scenario (st : ℚ) :
    isi [[false, false, true, false, false, true, false, false, false,
          true]] none = [[PyF.val 3, PyF.val 4]]
    ∧ isi [[false, false, true, false, false, true, false, false, false,
          true]] (some st) = [[PyF.val (3 * st), PyF.val (4 * st)]]
    ∧ isi [[false, false, true, false, false, true, false, false, false,
            true],
           [false, false, false, false, true, false, false, false, false,
            false]] none
      = [[PyF.val 3, PyF.val 4], [PyF.nan, PyF.nan]] := by
  refine ⟨?_, ?_, ?_⟩
  · simp [isi, boolIdx, tensorSplit, pyDiff, PyF.sub]
    norm_num
  · simp [isi, boolIdx, tensorSplit, pyDiff, PyF.sub]
    norm_num
    exact ⟨by ring, by ring⟩
  · simp [isi, boolIdx, tensorSplit, pyDiff, PyF.sub]
    norm_num

/-- Unfolding of `tensorSplit` with no split indices. -/
theorem tensorSplit_nil_splits {α : Type} (l : List α) :
    tensorSplit l [] = [l] := by
  simp [tensorSplit]

/-- Unfolding of `tensorSplit` at a leading split index. -/
theorem tensorSplit_cons_splits {α : Type} (l : List α) (s : ℕ)
    (rest : List ℕ) :
    tensorSplit l (s :: rest)
      = l.take s :: tensorSplit (l.drop s) (rest.map (· - s)) := by
  simp [tensorSplit]

/-- Splitting commutes with an elementwise map. -/
theorem tensorSplit_map {α β : Type} (f : α → β) (splits : List ℕ)
    (l : List α) :
    tensorSplit (l.map f) splits
      = (tensorSplit l splits).map (List.map f) := by
  suffices h : ∀ (k : ℕ) (splits : List ℕ), splits.length ≤ k →
      ∀ l : List α, tensorSplit (l.map f) splits
        = (tensorSplit l splits).map (List.map f) from
    h splits.length splits le_rfl l
  intro k
  induction k with
  | zero =>
    intro splits hk l
    have hnil : splits = [] := List.length_eq_zero.mp (Nat.le_zero.mp hk)
    subst hnil
    simp [tensorSplit_nil_splits]
  | succ k ih =>
    intro splits hk l
    cases splits with
    | nil => simp [tensorSplit_nil_splits]
    | cons s rest =>
      rw [tensorSplit_cons_splits, tensorSplit_cons_splits, List.map_cons]
      congr 1
      · exact (List.map_take f l s).symm
      · rw [← List.map_drop]
        exact ih (rest.map (· - s))
          (by simpa using Nat.succ_le_succ_iff.mp hk) (l.drop s)

/-- `boolIdx` of a concatenation: positions of the right part shift by the
length of the left part. -/
theorem boolIdx_append (a b : List Bool) :
    boolIdx (a ++ b) = boolIdx a ++ (boolIdx b).map (· + a.length) := by
  induction a with
  | nil => simp [boolIdx]
  | cons x t ih =>
    cases x <;>
      simp [boolIdx, ih, List.map_map, Function.comp_def, Nat.add_assoc]

/-- A row with no `True` entries has no positions. -/
theorem boolIdx_eq_nil (l : List Bool) (h : ∀ b ∈ l, b = false) :
    boolIdx l = [] := by
  induction l with
  | nil => rfl
  | cons x t ih =>
    have hx := h x (List.mem_cons_self x t)
    subst hx
    simpa [boolIdx] using
      ih (fun b hb => h b (List.mem_cons_of_mem _ hb))

/-- The number of positions equals the number of spikes. -/
theorem boolIdx_length (l : List Bool) :
    (boolIdx l).length = spikeCount l := by
  induction l with
  | nil => rfl
  | cons x t ih =>
    cases x <;> simp [boolIdx, spikeCount, List.filter_cons] <;>
      simpa [spikeCount] using ih

/-- A chunk `0 :: tl` with a zero-free tail has exactly one zero position,
at its head. -/
theorem boolIdx_zero_chunk (tl : List ℕ) (htl : ∀ x ∈ tl, x ≠ 0) :
    boolIdx ((0 :: tl).map (· == 0)) = [0] := by
  have hnil : boolIdx (tl.map (· == 0)) = [] := by
    apply boolIdx_eq_nil
    intro b hb
    simp only [List.mem_map] at hb
    obtain ⟨x, hx, rfl⟩ := hb
    simpa using htl x hx
  simp [boolIdx, hnil]

/-- Splitting the flattened chunk list at the (post-head) zero positions
recovers the chunks, for chunks of the shape `0 :: zero-free tail`. -/
theorem tensorSplit_at_zeros (cs : List (List ℕ)) (hne : cs ≠ [])
    (h : ∀ c ∈ cs, ∃ tl, c = 0 :: tl ∧ ∀ x ∈ tl, x ≠ 0) :
    tensorSplit cs.flatten
      ((boolIdx (cs.flatten.map (· == 0))).drop 1) = cs := by
  induction cs with
  | nil => exact absurd rfl hne
  | cons c cs' ih =>
    obtain ⟨tl, rfl, htl⟩ := h _ (List.mem_cons_self _ _)
    cases cs' with
    | nil =>
      simp only [List.flatten_cons, List.flatten_nil, List.append_nil]
      rw [boolIdx_zero_chunk tl htl]
      simp [tensorSplit_nil_splits]
    | cons c' cs'' =>
      obtain ⟨tl', hc', htl'⟩ := h c' (by simp)
      have hzr : ∃ zr, boolIdx (((c' :: cs'').flatten).map (· == 0))
          = 0 :: zr := by
        rw [List.flatten_cons, List.map_append, boolIdx_append, hc',
          boolIdx_zero_chunk tl' htl']
        exact ⟨_, rfl⟩
      obtain ⟨zr, hzr⟩ := hzr
      have hzr1 : (boolIdx (((c' :: cs'').flatten).map (· == 0))).drop 1
          = zr := by rw [hzr]; rfl
      have hsplits : (boolIdx ((((0 :: tl) :: c' :: cs'').flatten).map
          (· == 0))).drop 1
          = (tl.length + 1) :: zr.map (· + (tl.length + 1)) := by
        rw [List.flatten_cons, List.map_append, boolIdx_append,
          boolIdx_zero_chunk tl htl, hzr]
        simp
      rw [hsplits, List.flatten_cons, tensorSplit_cons_splits]
      have hL : tl.length + 1 = (0 :: tl).length := by simp
      rw [hL, List.take_left, List.drop_left]
      have hback : (zr.map (· + (0 :: tl).length)).map
          (· - (0 :: tl).length) = zr := by
        simp [List.map_map, Function.comp_def]
      rw [hback]
      have := ih (by simp)
        (fun c hc => h c (List.mem_cons_of_mem _ hc))
      rw [hzr1] at this
      rw [this]

/-- A fold with `max` over a list of bounded naturals is bounded. -/
theorem foldr_max_le (l : List ℕ) (k : ℕ) (h : ∀ x ∈ l, x ≤ k) :
    l.foldr max 0 ≤ k := by
  induction l with
  | nil => exact Nat.zero_le k
  | cons a t ih =>
    exact max_le (h a (List.mem_cons_self a t))
      (ih (fun x hx => h x (List.mem_cons_of_mem _ hx)))

/-- `torch.diff` of a row with at most one entry is empty. -/
theorem pyDiff_short (r : List PyF) (h : r.length ≤ 1) : pyDiff r = [] := by
  match r with
  | [] => rfl
  | [a] => rfl
  | a :: b :: t => simp at h

/-- C10: on any nonempty rectangular batch of spike trains in which no train
has two or more spikes, `isi` returns one empty interval row per train —
the final (interval) dimension has size zero and nothing raises. -/
theorem isi_no_intervals (T : ℕ) (trains : List (List Bool))
    (st : Option ℚ) (hne : trains ≠ [])
    (_hlen : ∀ t ∈ trains, t.length = T)
    (hcnt : ∀ t ∈ trains, spikeCount t ≤ 1) :
    isi trains st = List.replicate trains.length [] := by
  simp only [isi]
  have hmap : (trains.map (fun t => true :: t)).map boolIdx
      = trains.map (fun t => 0 :: (boolIdx t).map (· + 1)) := by
    rw [List.map_map]
    apply List.map_congr_left
    intro t _
    simp [boolIdx]
  rw [hmap]
  set cs := trains.map (fun t => 0 :: (boolIdx t).map (· + 1)) with hcs
  have hcsne : cs ≠ [] := by
    simpa [hcs] using hne
  have hshape : ∀ c ∈ cs, ∃ tl, c = 0 :: tl ∧ ∀ x ∈ tl, x ≠ 0 := by
    intro c hc
    rw [hcs] at hc
    simp only [List.mem_map] at hc
    obtain ⟨t, _, rfl⟩ := hc
    refine ⟨(boolIdx t).map (· + 1), rfl, ?_⟩
    intro x hx
    simp only [List.mem_map] at hx
    obtain ⟨y, _, rfl⟩ := hx
    exact Nat.succ_ne_zero y
  have hchunklen : ∀ c ∈ cs, c.length ≤ 2 := by
    intro c hc
    rw [hcs] at hc
    simp only [List.mem_map] at hc
    obtain ⟨t, ht, rfl⟩ := hc
    have := hcnt t ht
    simp only [List.length_cons, List.length_map, boolIdx_length]
    omega
  rw [tensorSplit_map, tensorSplit_at_zeros cs hcsne hshape]
  rw [List.eq_replicate_iff]
  constructor
  · simp [hcs]
  · intro b hb
    simp only [List.map_map, List.mem_map] at hb
    obtain ⟨c, hc, rfl⟩ := hb
    have hM2 : (List.map (fun x => x.length) cs).foldr max 0 ≤ 2 := by
      apply foldr_max_le
      intro x hx
      simp only [List.mem_map] at hx
      obtain ⟨c', hc', rfl⟩ := hx
      exact hchunklen c' hc'
    apply pyDiff_short
    have hclen : c.length ≤ 2 := hchunklen c hc
    simp only [Function.comp_def, List.length_drop, List.length_append,
      List.length_replicate, List.length_map]
    omega

/-- C10 witness: a two-train batch (no spikes; one spike) satisfies the
hypotheses and gets one empty interval row per train. -/
theorem isi_no_intervals_witness :
    ([[false, false], [false, true]] : List (List Bool)) ≠ []
    ∧ (∀ t ∈ ([[false, false], [false, true]] : List (List Bool)),
        t.length = 2)
    ∧ (∀ t ∈ ([[false, false], [false, true]] : List (List Bool)),
        spikeCount t ≤ 1)
    ∧ isi [[false, false], [false, true]] none = List.replicate 2 [] :=
  ⟨by decide, by decide, by decide,
    isi_no_intervals 2 [[false, false], [false, true]] none
      (by decide) (by decide) (by decide)⟩
